import Mathlib

/-!
# Shallow embedding of the torch_timer core (src/src/lib.rs)

Timekeeping model:

* `Duration` (Rust `std::time::Duration`) is modelled as a number of
  nanoseconds (`Nat`).  `Duration::MAX` is `u64::MAX` seconds plus
  `999_999_999` nanoseconds, i.e. `2^64 * 10^9 - 1` nanoseconds.
  `saturating_add` clamps at `Duration::MAX`, `saturating_sub` clamps at
  zero (truncated `Nat` subtraction).
* `Instant` (the `instant` crate, which on native targets is
  `std::time::Instant`, on Linux a `CLOCK_MONOTONIC` timespec with an
  `i64` seconds field) is modelled as a number of nanoseconds (`Int`)
  ranging over `[IMIN, IMAX]`.  `Instant + Duration` and
  `Instant - Duration` panic when the result leaves that range, so the
  embedded operations return `Option` (`none` = panic).
  `Instant::saturating_duration_since` clamps at zero and is total.
* `u64` arithmetic on raw minute counts (`removal_time * BASE_TIME`)
  wraps modulo `2^64`, matching release-profile Rust semantics.
-/

namespace TorchTimer

/-- Nanoseconds per second. -/
def NPS : Nat := 1000000000

/-- Constant `2^64`, the modulus of Rust `u64` arithmetic. -/
def U64 : Nat := 2 ^ 64

/-- Rust `Duration::MAX` in nanoseconds: `u64::MAX` seconds + `999999999` ns. -/
def DMAX : Nat := 2 ^ 64 * NPS - 1

/-- Largest representable `Instant` in nanoseconds (`i64::MAX` seconds + `999999999` ns). -/
def IMAX : Int := 2 ^ 63 * NPS - 1

/-- Smallest representable `Instant` in nanoseconds (`i64::MIN` seconds). -/
def IMIN : Int := -(2 ^ 63 * NPS)

/- A `Duration` is modelled as a count of nanoseconds (`Nat`); valid
values are `≤ DMAX`.  An `Instant` is modelled as nanoseconds relative to
the monotonic-clock origin (`Int`); valid values lie in `[IMIN, IMAX]`. -/

/-- Rust `Duration::from_secs`. -/
def fromSecs (s : Nat) : Nat := s * NPS

/-- Rust `Duration::saturating_add` (clamps at `Duration::MAX`). -/
def satAdd (a b : Nat) : Nat := min (a + b) DMAX

/-- Rust `Duration::saturating_sub` (clamps at zero; `Nat` subtraction truncates). -/
def satSub (a b : Nat) : Nat := a - b

/-- Rust `Instant + Duration`: panics (`none`) when the result exceeds `IMAX`. -/
def instAddDur (t : Int) (d : Nat) : Option Int :=
  if t + (d : Int) ≤ IMAX then some (t + (d : Int)) else none

/-- Rust `Instant - Duration`: panics (`none`) when the result is below `IMIN`. -/
def instSubDur (t : Int) (d : Nat) : Option Int :=
  if IMIN ≤ t - (d : Int) then some (t - (d : Int)) else none

/-- Rust `Instant::saturating_duration_since`: `e - now` clamped at zero. -/
def satDurSince (e now : Int) : Nat := (e - now).toNat

/-- Rust `const BASE_TIME: u64 = 60`. -/
def BASE_TIME : Nat := 60

/-- Rust `Duration::from_secs(x * BASE_TIME)` where `x * BASE_TIME` is `u64`
multiplication (wraps modulo `2^64` in release builds). -/
def minutesToDur (x : Nat) : Nat := fromSecs (x * BASE_TIME % U64)

/-- Rust `enum TimerState`, variants `RunUntil(Instant)` and `Paused(Duration)`. -/
inductive TimerState where
  | RunUntil (deadline : Int)
  | Paused (remaining : Nat)
deriving DecidableEq, Repr

/-- Rust `impl From<Duration> for TimerState` (deserialization). -/
def TimerState.fromDuration (d : Nat) : TimerState := .Paused d

/-- Rust `impl From<TimerState> for Duration` (serialization); the Rust code
calls `Instant::now()` inside, passed here as `now`. -/
def TimerState.intoDuration (s : TimerState) (now : Int) : Nat :=
  match s with
  | .RunUntil e => satDurSince e now
  | .Paused d => d

/-- Rust `struct Timer`. -/
structure Timer where
  name : String
  state : TimerState
  displayed_time : Nat
  local_pause : Bool
  id : Nat
  played_sound : Bool
deriving DecidableEq, Repr

/-- Rust `Timer::new(name, duration, id)`. -/
def Timer.new (name : String) (duration : Nat) (id : Nat) : Timer :=
  { name
    state := .Paused (minutesToDur duration)
    displayed_time := 10
    local_pause := false
    played_sound := false
    id }

/-- Rust `Timer::remove_time`: on `RunUntil`, unchecked `*end -= d` (panic on
underflow); on `Paused`, `saturating_sub`. -/
def Timer.remove_time (t : Timer) (removal_time : Nat) : Option Timer :=
  let d := minutesToDur removal_time
  match t.state with
  | .RunUntil e => (instSubDur e d).map (fun e2 => { t with state := .RunUntil e2 })
  | .Paused dur => some { t with state := .Paused (satSub dur d) }

/-- Rust `Timer::add_time`: on `RunUntil`, unchecked `*end += d` (panic on
overflow); on `Paused`, `saturating_add`. -/
def Timer.add_time (t : Timer) (added_time : Nat) : Option Timer :=
  let d := minutesToDur added_time
  match t.state with
  | .RunUntil e => (instAddDur e d).map (fun e2 => { t with state := .RunUntil e2 })
  | .Paused dur => some { t with state := .Paused (satAdd dur d) }

/-- Rust `Timer::set_time`: on `RunUntil`, `*end = Instant::now() + d` (panic on
overflow); on `Paused`, overwrite the remaining duration. -/
def Timer.set_time (t : Timer) (now : Int) (time : Nat) : Option Timer :=
  let d := minutesToDur time
  match t.state with
  | .RunUntil _ => (instAddDur now d).map (fun e2 => { t with state := .RunUntil e2 })
  | .Paused _ => some { t with state := .Paused d }

/-- Rust `Timer::time_remaining(now)`. -/
def Timer.time_remaining (t : Timer) (now : Int) : Nat :=
  match t.state with
  | .RunUntil e => satDurSince e now
  | .Paused d => d

/-- Rust `Timer::is_paused`. -/
def Timer.is_paused (t : Timer) : Bool :=
  match t.state with
  | .Paused _ => true
  | .RunUntil _ => false

/-- Rust `Timer::start(now)`: `Paused(d)` becomes `RunUntil(now + d)` (the `+`
panics on overflow); no-op when already running. -/
def Timer.start (t : Timer) (now : Int) : Option Timer :=
  match t.state with
  | .Paused d => (instAddDur now d).map (fun e => { t with state := .RunUntil e })
  | .RunUntil _ => some t

/-- Rust `Timer::pause(time_left)`: unconditionally `Paused(time_left)`. -/
def Timer.pause (t : Timer) (time_left : Nat) : Timer :=
  { t with state := .Paused time_left }

/-- Rust `struct MyApp` (the board).  The `audio` handle is an external
collaborator and carries no state relevant to the model; the `running`
field carries `#[serde(skip)]`. -/
structure MyApp where
  timers : List Timer
  start_duration : Nat
  displayed_time : Nat
  new_name : String
  next_timer_id : Nat
  running : Bool
deriving DecidableEq, Repr

/-- Rust `impl Default for MyApp`. -/
def MyApp.default : MyApp :=
  { timers := [Timer.new "torch" 60 0]
    start_duration := 60
    displayed_time := 10
    new_name := "torch"
    next_timer_id := 0
    running := false }

/-- A serialized `Timer` record: serde turns `state` into a `Duration`
via `From<TimerState> for Duration` (the other fields persist as-is). -/
structure PersistedTimer where
  name : String
  duration : Nat
  displayed_time : Nat
  local_pause : Bool
  id : Nat
  played_sound : Bool
deriving DecidableEq, Repr

/-- Serialization of one timer at save instant `now`. -/
def Timer.serialize (t : Timer) (now : Int) : PersistedTimer :=
  { name := t.name
    duration := t.state.intoDuration now
    displayed_time := t.displayed_time
    local_pause := t.local_pause
    id := t.id
    played_sound := t.played_sound }

/-- Deserialization of one timer: `From<Duration> for TimerState`. -/
def PersistedTimer.deserialize (p : PersistedTimer) : Timer :=
  { name := p.name
    state := TimerState.fromDuration p.duration
    displayed_time := p.displayed_time
    local_pause := p.local_pause
    id := p.id
    played_sound := p.played_sound }

/-- The persisted board: everything except the `#[serde(skip)]` fields
(`running`, `audio`). -/
structure PersistedApp where
  timers : List PersistedTimer
  start_duration : Nat
  displayed_time : Nat
  new_name : String
  next_timer_id : Nat
deriving DecidableEq, Repr

/-- Board serialization (`eframe::App::save`) at save instant `now`. -/
def MyApp.save (a : MyApp) (now : Int) : PersistedApp :=
  { timers := a.timers.map (fun t => t.serialize now)
    start_duration := a.start_duration
    displayed_time := a.displayed_time
    new_name := a.new_name
    next_timer_id := a.next_timer_id }

/-- Loading a persisted board: skipped fields take their `Default` values,
so `running := false`. -/
def PersistedApp.load (p : PersistedApp) : MyApp :=
  { timers := p.timers.map PersistedTimer.deserialize
    start_duration := p.start_duration
    displayed_time := p.displayed_time
    new_name := p.new_name
    next_timer_id := p.next_timer_id
    running := false }

/-- The "Done" branch of the per-frame loop: when `time_remaining(now)` is
zero and `played_sound` is not yet set, the audio collaborator is invoked
(the returned `Bool`) and the flag is set; otherwise nothing happens. -/
def cueTick (t : Timer) (now : Int) : Timer × Bool :=
  if t.time_remaining now = 0 then
    if t.played_sound then (t, false)
    else ({ t with played_sound := true }, true)
  else (t, false)

/-- The per-timer `⏮` button: `add_time(displayed_time)`, then reset
`played_sound` when the frame-start remaining time was zero and the new
remaining time is not. -/
def perAddTimer (t : Timer) (now : Int) : Option Timer :=
  (t.add_time t.displayed_time).map (fun t2 =>
    if t.time_remaining now = 0 ∧ t2.time_remaining now ≠ 0 then
      { t2 with played_sound := false }
    else t2)

/-- The per-row local-pause toggle (the time label, shown only while the
remaining time is nonzero): if `local_pause` is set, start the timer when
the global flag is running and clear `local_pause`; otherwise pause at the
frame-start remaining time and set `local_pause`. -/
def toggleTimer (t : Timer) (now : Int) (running : Bool) : Option Timer :=
  if t.local_pause then
    (if running then t.start now else some t).map
      (fun t2 => { t2 with local_pause := false })
  else
    some { t.pause (t.time_remaining now) with local_pause := true }

/-- Apply a fallible operation to every timer in order; a panic (`none`)
anywhere aborts the whole pass, as in the Rust loop. -/
def mapTimers (f : Timer → Option Timer) : List Timer → Option (List Timer)
  | [] => some []
  | t :: ts =>
    match f t, mapTimers f ts with
    | some t2, some ts2 => some (t2 :: ts2)
    | _, _ => none

/-- The `+` button: build a timer from the board template and the next id,
bump the id with `wrapping_add(1)` (`u32`), start it when the global flag
is running, and insert it at the originating row's position. -/
def MyApp.spawnTimer (a : MyApp) (now : Int) (pos : Nat) : Option MyApp :=
  let t := Timer.new a.new_name a.start_duration a.next_timer_id
  (if a.running then t.start now else some t).map (fun t2 =>
    { a with timers := a.timers.insertIdx pos t2
             next_timer_id := (a.next_timer_id + 1) % 2 ^ 32 })

/-- The board-level `⏮` button: `add_time(displayed_time)` on every timer
whose `local_pause` is false. -/
def MyApp.bulkAdd (a : MyApp) : Option MyApp :=
  (mapTimers (fun t => if t.local_pause then some t
      else t.add_time a.displayed_time) a.timers).map
    (fun ts => { a with timers := ts })

/-- The board-level `⏭` button: `remove_time(displayed_time)` on every
timer whose `local_pause` is false. -/
def MyApp.bulkRemove (a : MyApp) : Option MyApp :=
  (mapTimers (fun t => if t.local_pause then some t
      else t.remove_time a.displayed_time) a.timers).map
    (fun ts => { a with timers := ts })

/-- The board-level `⏵` button: start every paused timer with
`local_pause = false`, set the global running flag. -/
def MyApp.globalStart (a : MyApp) (now : Int) : Option MyApp :=
  (mapTimers (fun t => if t.is_paused && !t.local_pause then t.start now
      else some t) a.timers).map
    (fun ts => { a with timers := ts, running := true })

/-- The board-level `⏸` button: pause every running timer at its current
remaining time, clear the global running flag. -/
def MyApp.globalPause (a : MyApp) (now : Int) : MyApp :=
  { a with
    timers := a.timers.map (fun t =>
      if !t.is_paused then t.pause (t.time_remaining now) else t)
    running := false }

/-- One user-visible board transition.  Each constructor is one UI
operation of `MyApp::update`, guarded exactly as the widget is
(`perRemove` and `toggle` exist only while the remaining time is nonzero,
`gStart`/`gPause` only in the matching global mode); `Option`-valued
operations step only when they do not panic. -/
inductive Step : MyApp → MyApp → Prop where
  | spawn (a a2 : MyApp) (now : Int) (pos : Nat)
      (h : a.spawnTimer now pos = some a2) : Step a a2
  | removeAt (a : MyApp) (i : Nat) :
      Step a { a with timers := a.timers.eraseIdx i }
  | toggle (a : MyApp) (i : Nat) (now : Int) (t t2 : Timer)
      (hget : a.timers[i]? = some t)
      (hz : t.time_remaining now ≠ 0)
      (htog : toggleTimer t now a.running = some t2) :
      Step a { a with timers := a.timers.set i t2 }
  | perAdd (a : MyApp) (i : Nat) (now : Int) (t t2 : Timer)
      (hget : a.timers[i]? = some t)
      (hop : perAddTimer t now = some t2) :
      Step a { a with timers := a.timers.set i t2 }
  | perRemove (a : MyApp) (i : Nat) (now : Int) (t t2 : Timer)
      (hget : a.timers[i]? = some t)
      (hz : t.time_remaining now ≠ 0)
      (hop : t.remove_time t.displayed_time = some t2) :
      Step a { a with timers := a.timers.set i t2 }
  | perSet (a : MyApp) (i : Nat) (now : Int) (t t2 : Timer)
      (hget : a.timers[i]? = some t)
      (hop : t.set_time now t.displayed_time = some t2) :
      Step a { a with timers := a.timers.set i t2 }
  | cue (a : MyApp) (i : Nat) (now : Int) (t : Timer)
      (hget : a.timers[i]? = some t) :
      Step a { a with timers := a.timers.set i (cueTick t now).1 }
  | bulkAdd (a a2 : MyApp) (h : a.bulkAdd = some a2) : Step a a2
  | bulkRemove (a a2 : MyApp) (h : a.bulkRemove = some a2) : Step a a2
  | gStart (a a2 : MyApp) (now : Int) (hr : a.running = false)
      (h : a.globalStart now = some a2) : Step a a2
  | gPause (a : MyApp) (now : Int) (hr : a.running = true) :
      Step a (a.globalPause now)
  | config (a : MyApp) (nm : String) (sd dt : Nat) :
      Step a { a with new_name := nm, start_duration := sd, displayed_time := dt }

/-- Board states reachable from the default board through UI operations. -/
def Reachable (a : MyApp) : Prop :=
  Relation.ReflTransGen Step MyApp.default a

/-- The C10 invariant, as an executable check: every timer with
`local_pause = true` is in the `Paused` state. -/
def localPausedArePaused (a : MyApp) : Bool :=
  a.timers.all (fun t => !t.local_pause || t.is_paused)

/-- One timer's C10 obligation: individually paused implies `Paused`. -/
def LP (t : Timer) : Prop := t.local_pause = true → t.is_paused = true

/-! ## Theorems -/

/-- C1.  On a `RunUntil` timer the code does NOT saturate: `remove_time`
performs an unchecked `*end -= d` and panics (models as `none`) once the
deadline would drop below the representable range, and `add_time`
performs an unchecked `*end += d` and panics past the top of the range.
Evaluated at the failing inputs: a running timer with deadline at the
clock origin removed by `2^58` minutes, and a running timer with deadline
`IMAX` extended by one minute. -/
theorem running_adjust_panics :
    Timer.remove_time { Timer.new "torch" 1 0 with state := .RunUntil 0 } (2 ^ 58) = none ∧
    Timer.add_time { Timer.new "torch" 1 0 with state := .RunUntil IMAX } 1 = none := by
  decide

/-- C2.  `time_remaining` clamps: for a `RunUntil(e)` timer it is the
saturating difference, so whenever the deadline has already elapsed
(`e ≤ now`) the result is exactly zero, and for in-range instants the
result never exceeds `Duration::MAX` (no wrap-around).  (The result type
is a duration, hence non-negative by construction.) -/
theorem time_remaining_clamps (t : Timer) (e now : Int)
    (hs : t.state = .RunUntil e) :
    (e ≤ now → t.time_remaining now = 0) ∧
    (IMIN ≤ e → e ≤ IMAX → IMIN ≤ now → now ≤ IMAX → t.time_remaining now ≤ DMAX) := by
  simp only [Timer.time_remaining, hs, satDurSince]
  constructor
  · intro h
    omega
  · intro h1 h2 h3 h4
    simp only [DMAX, IMAX, IMIN, NPS] at *
    omega

/-- C2 witness: a timer running until instant `5`, queried at instant `7`. -/
theorem time_remaining_clamps_witness :
    Timer.time_remaining { Timer.new "torch" 1 0 with state := .RunUntil 5 } 7 = 0 ∧
    Timer.time_remaining { Timer.new "torch" 1 0 with state := .RunUntil 5 } 7 ≤ DMAX :=
  ⟨(time_remaining_clamps _ 5 7 rfl).1 (by decide),
   (time_remaining_clamps _ 5 7 rfl).2 (by decide) (by decide) (by decide) (by decide)⟩

/-- C7 counterexample: `start` does not succeed for every paused timer and
every instant — `Paused(60s)` started at `now = IMAX` panics on the
unchecked `now + duration` (models as `none`), so it does not yield
`RunningUntil(now + d)` as claimed. -/
theorem start_overflow_cex : (Timer.new "torch" 1 0).start IMAX = none := by
  decide

/-- C7 (amended).  When `now + d` stays representable, `start` on
`Paused(d)` yields `RunUntil(now + d)`, `time_remaining(now)` right after
equals `d` (no time lost), and `pause(time_remaining(now))` at the same
instant restores the timer exactly. -/
theorem start_pause_roundtrip (t : Timer) (d : Nat) (now : Int)
    (hs : t.state = .Paused d) (h : now + (d : Int) ≤ IMAX) :
    t.start now = some { t with state := .RunUntil (now + (d : Int)) } ∧
    Timer.time_remaining { t with state := .RunUntil (now + (d : Int)) } now = d ∧
    Timer.pause { t with state := .RunUntil (now + (d : Int)) }
      (Timer.time_remaining { t with state := .RunUntil (now + (d : Int)) } now) = t := by
  refine ⟨?_, ?_, ?_⟩
  · simp [Timer.start, hs, instAddDur, h]
  · simp [Timer.time_remaining, satDurSince]
  · simp only [Timer.time_remaining, satDurSince, Timer.pause]
    rw [show (now + (d : Int) - now).toNat = d by omega, ← hs]

/-- C7 witness: a fresh one-minute timer started at instant `0`. -/
theorem start_pause_roundtrip_witness :
    0 + ((fromSecs 60 : Nat) : Int) ≤ IMAX ∧
    (Timer.new "torch" 1 0).start 0 =
      some { Timer.new "torch" 1 0 with
             state := .RunUntil (0 + ((fromSecs 60 : Nat) : Int)) } :=
  ⟨by decide, (start_pause_roundtrip (Timer.new "torch" 1 0) (fromSecs 60) 0 rfl (by decide)).1⟩

/-- C8 counterexample: with `d = u64::MAX` seconds and `x = 1` the claim's
hypothesis `x*60 s ≤ d` holds, yet `add_time 1` saturates at
`Duration::MAX` and `remove_time 1` then lands `60` seconds below
`Duration::MAX`, not back at `d`. -/
theorem add_remove_saturation_cex :
    (Timer.add_time
        { Timer.new "torch" 1 0 with state := .Paused (fromSecs (2 ^ 64 - 1)) } 1).bind
      (fun t2 => t2.remove_time 1) =
      some { Timer.new "torch" 1 0 with state := .Paused (DMAX - fromSecs 60) } ∧
    fromSecs (1 * BASE_TIME) ≤ fromSecs (2 ^ 64 - 1) ∧
    DMAX - fromSecs 60 ≠ fromSecs (2 ^ 64 - 1) := by
  decide

/-- C8 (amended).  On `Paused(d)`, if `x*60` does not overflow `u64`,
`x*60` seconds is at most `d`, and `d + x*60` seconds does not exceed
`Duration::MAX` (so no saturation triggers on either side), then
`add_time x` followed by `remove_time x` restores the timer exactly. -/
theorem add_remove_roundtrip (t : Timer) (d : Nat) (x : Nat)
    (hs : t.state = .Paused d) (hx : x * BASE_TIME < U64)
    (hle : fromSecs (x * BASE_TIME) ≤ d)
    (hsat : d + fromSecs (x * BASE_TIME) ≤ DMAX) :
    (t.add_time x).bind (fun t2 => t2.remove_time x) = some t := by
  simp only [Timer.add_time, Timer.remove_time, hs, minutesToDur,
    Nat.mod_eq_of_lt hx, Option.some_bind', satAdd, satSub]
  rw [min_eq_left hsat]
  rw [show d + fromSecs (x * BASE_TIME) - fromSecs (x * BASE_TIME) = d by omega, ← hs]

/-- C8 witness: a one-minute paused timer, add one minute then remove it. -/
theorem add_remove_roundtrip_witness :
    ((Timer.new "torch" 1 0).add_time 1).bind (fun t2 => t2.remove_time 1) =
      some (Timer.new "torch" 1 0) :=
  add_remove_roundtrip (Timer.new "torch" 1 0) (minutesToDur 1) 1 rfl
    (by decide) (by decide) (by decide)

/-- C9 counterexample: the minutes-to-seconds conversion is a `u64`
multiplication that wraps (release-profile semantics): at
`x = 2^62 + 1`, `x * 60` wraps to `60`, so `remove_time x` on
`Paused(120 s)` yields `Paused(60 s)` while the claim's
`max(0, d - x*60 s)` is `0`. -/
theorem remove_time_wrap_cex :
    Timer.remove_time { Timer.new "torch" 1 0 with state := .Paused (fromSecs 120) }
        (2 ^ 62 + 1) =
      some { Timer.new "torch" 1 0 with state := .Paused (fromSecs 60) } ∧
    (((fromSecs 120 : Nat) : Int) - ((2 ^ 62 + 1) * 60) * (NPS : Int)).toNat = 0 ∧
    (fromSecs 60 : Nat) ≠ 0 := by
  decide

/-- C9 (amended).  Provided `x*60` does not overflow `u64`, `remove_time x`
on `Paused(d)` yields `Paused(d - x*60 s)` where the subtraction truncates
at zero (`Nat` subtraction is exactly `max(0, d - x*60 s)`): never a
negative remaining duration. -/
theorem remove_time_paused (t : Timer) (d : Nat) (x : Nat)
    (hs : t.state = .Paused d) (hx : x * BASE_TIME < U64) :
    t.remove_time x = some { t with state := .Paused (d - fromSecs (x * BASE_TIME)) } := by
  simp [Timer.remove_time, hs, minutesToDur, Nat.mod_eq_of_lt hx, satSub]

/-- C9 witness: removing two minutes from a one-minute paused timer floors
at zero. -/
theorem remove_time_paused_witness :
    (Timer.new "torch" 1 0).remove_time 2 =
      some { Timer.new "torch" 1 0 with
             state := .Paused (minutesToDur 1 - fromSecs (2 * BASE_TIME)) } :=
  remove_time_paused (Timer.new "torch" 1 0) (minutesToDur 1) 2 rfl (by decide)

/-- C3.  After a save at instant `now` followed by a load, the global
running flag is false (it is `#[serde(skip)]` and `Default` starts it
false), and every timer is `Paused` with exactly its remaining time as of
`now`: serialization converts `RunUntil(deadline)` to
`deadline.saturating_duration_since(now)` and deserialization rebuilds
every persisted duration as `Paused`. -/
theorem save_load_pauses (a : MyApp) (now : Int) :
    ((a.save now).load).running = false ∧
    ((a.save now).load).timers.length = a.timers.length ∧
    ∀ (i : Nat) (h1 : i < a.timers.length) (h2 : i < ((a.save now).load).timers.length),
      (((a.save now).load).timers.get ⟨i, h2⟩).state =
        .Paused ((a.timers.get ⟨i, h1⟩).time_remaining now) := by
  refine ⟨rfl, by simp [MyApp.save, PersistedApp.load], ?_⟩
  intro i h1 h2
  simp only [MyApp.save, PersistedApp.load, List.get_eq_getElem, List.getElem_map,
    PersistedTimer.deserialize, Timer.serialize, TimerState.fromDuration,
    TimerState.intoDuration, Timer.time_remaining]

/-- C3 witness: a board holding one running timer with deadline `100` s,
saved at instant `40` s, reloads paused with `60` s remaining. -/
theorem save_load_pauses_witness :
    ((MyApp.save { MyApp.default with
        timers := [{ Timer.new "torch" 1 0 with state := .RunUntil ((fromSecs 100 : Nat) : Int) }]
        running := true } ((fromSecs 40 : Nat) : Int)).load).running = false ∧
    (((MyApp.save { MyApp.default with
        timers := [{ Timer.new "torch" 1 0 with state := .RunUntil ((fromSecs 100 : Nat) : Int) }]
        running := true } ((fromSecs 40 : Nat) : Int)).load).timers.get ⟨0, by decide⟩).state =
      .Paused (Timer.time_remaining
        { Timer.new "torch" 1 0 with state := .RunUntil ((fromSecs 100 : Nat) : Int) }
        ((fromSecs 40 : Nat) : Int)) :=
  ⟨(save_load_pauses _ ((fromSecs 40 : Nat) : Int)).1,
   (save_load_pauses _ ((fromSecs 40 : Nat) : Int)).2.2 0 (by decide) (by decide)⟩

/-- C4.  Timer ids are NOT always distinct: `MyApp::default` creates the
initial "torch" timer with id `0` but also leaves `next_timer_id` at `0`,
so the first spawned timer receives id `0` again — two timers on the
board share id `0` (and `wrapping_add` also reuses ids after `2^32`
spawns).  Evaluated at the failing input: the default board after one
press of the `+` button. -/
theorem spawn_duplicates_default_id :
    (MyApp.default.spawnTimer 0 1).map (fun a => a.timers.map (fun t => t.id)) =
      some [0, 0] ∧
    ([0, 0] : List Nat).Nodup = False := by
  exact ⟨by decide, eq_false (by decide)⟩

/-- A successful `mapTimers` pass preserves the list length. -/
theorem mapTimers_length {f : Timer → Option Timer} {ts ts2 : List Timer}
    (h : mapTimers f ts = some ts2) : ts2.length = ts.length := by
  induction ts generalizing ts2 with
  | nil =>
    simp only [mapTimers, Option.some.injEq] at h
    simp [← h]
  | cons t rest ih =>
    simp only [mapTimers] at h
    cases hft : f t with
    | none => rw [hft] at h; simp at h
    | some t2 =>
      rw [hft] at h
      cases hmt : mapTimers f rest with
      | none => rw [hmt] at h; simp at h
      | some rest2 =>
        rw [hmt] at h
        simp only [Option.some.injEq] at h
        simp [← h, ih hmt]

/-- A successful `mapTimers` pass acts index-wise: element `i` of the
output is exactly `f` applied to element `i` of the input. -/
theorem mapTimers_get {f : Timer → Option Timer} {ts ts2 : List Timer}
    (h : mapTimers f ts = some ts2) :
    ∀ (i : Nat) (h1 : i < ts.length) (h2 : i < ts2.length),
      f (ts.get ⟨i, h1⟩) = some (ts2.get ⟨i, h2⟩) := by
  induction ts generalizing ts2 with
  | nil => intro i h1 h2; exact absurd h1 (by simp)
  | cons t rest ih =>
    simp only [mapTimers] at h
    cases hft : f t with
    | none => rw [hft] at h; simp at h
    | some t2 =>
      rw [hft] at h
      cases hmt : mapTimers f rest with
      | none => rw [hmt] at h; simp at h
      | some rest2 =>
        rw [hmt] at h
        simp only [Option.some.injEq] at h
        subst h
        intro i h1 h2
        cases i with
        | zero => simpa using hft
        | succ n =>
          simpa using ih hmt n (by simpa using h1) (by simpa using h2)

/-- C5.  The board-level bulk add and bulk remove apply
`add_time`/`remove_time` with the board step to exactly the timers whose
`local_pause` is false: a timer with `local_pause = true` comes out of
both operations completely unchanged, and a timer with
`local_pause = false` comes out exactly as the direct
`add_time`/`remove_time` call would leave it. -/
theorem bulk_skip_local_pause (a aA aR : MyApp)
    (hA : a.bulkAdd = some aA) (hR : a.bulkRemove = some aR) :
    aA.timers.length = a.timers.length ∧ aR.timers.length = a.timers.length ∧
    ∀ (i : Nat) (h1 : i < a.timers.length) (h2 : i < aA.timers.length)
      (h3 : i < aR.timers.length),
      ((a.timers.get ⟨i, h1⟩).local_pause = true →
        aA.timers.get ⟨i, h2⟩ = a.timers.get ⟨i, h1⟩ ∧
        aR.timers.get ⟨i, h3⟩ = a.timers.get ⟨i, h1⟩) ∧
      ((a.timers.get ⟨i, h1⟩).local_pause = false →
        (a.timers.get ⟨i, h1⟩).add_time a.displayed_time = some (aA.timers.get ⟨i, h2⟩) ∧
        (a.timers.get ⟨i, h1⟩).remove_time a.displayed_time = some (aR.timers.get ⟨i, h3⟩)) := by
  simp only [MyApp.bulkAdd] at hA
  simp only [MyApp.bulkRemove] at hR
  cases hmtA : mapTimers (fun t => if t.local_pause = true then some t
      else t.add_time a.displayed_time) a.timers with
  | none => rw [hmtA] at hA; simp at hA
  | some tsA =>
  rw [hmtA] at hA
  simp only [Option.map_some', Option.some.injEq] at hA
  cases hmtR : mapTimers (fun t => if t.local_pause = true then some t
      else t.remove_time a.displayed_time) a.timers with
  | none => rw [hmtR] at hR; simp at hR
  | some tsR =>
  rw [hmtR] at hR
  simp only [Option.map_some', Option.some.injEq] at hR
  subst hA hR
  refine ⟨mapTimers_length hmtA, mapTimers_length hmtR, ?_⟩
  intro i h1 h2 h3
  have hgA := mapTimers_get hmtA i h1 h2
  have hgR := mapTimers_get hmtR i h1 h3
  constructor
  · intro hlp
    rw [if_pos hlp] at hgA hgR
    simp only [Option.some.injEq] at hgA hgR
    exact ⟨hgA.symm, hgR.symm⟩
  · intro hlp
    rw [if_neg (by simp only [hlp]; exact Bool.false_ne_true)] at hgA hgR
    exact ⟨hgA, hgR⟩

/-- C5 witness: a board with one individually paused timer; both bulk
operations return the board unchanged, and the timer is untouched. -/
theorem bulk_skip_local_pause_witness :
    MyApp.bulkAdd { MyApp.default with
        timers := [{ Timer.new "torch" 1 1 with local_pause := true }] } =
      some { MyApp.default with
        timers := [{ Timer.new "torch" 1 1 with local_pause := true }] } ∧
    MyApp.bulkRemove { MyApp.default with
        timers := [{ Timer.new "torch" 1 1 with local_pause := true }] } =
      some { MyApp.default with
        timers := [{ Timer.new "torch" 1 1 with local_pause := true }] } ∧
    ({ MyApp.default with
        timers := [{ Timer.new "torch" 1 1 with local_pause := true }] } :
      MyApp).timers.get ⟨0, by decide⟩ =
      ({ MyApp.default with
        timers := [{ Timer.new "torch" 1 1 with local_pause := true }] } :
      MyApp).timers.get ⟨0, by decide⟩ :=
  ⟨by decide, by decide,
   ((bulk_skip_local_pause
      { MyApp.default with
        timers := [{ Timer.new "torch" 1 1 with local_pause := true }] }
      { MyApp.default with
        timers := [{ Timer.new "torch" 1 1 with local_pause := true }] }
      { MyApp.default with
        timers := [{ Timer.new "torch" 1 1 with local_pause := true }] }
      (by decide) (by decide)).2.2 0 (by decide) (by decide)
      (by decide)).1 (by decide) |>.1⟩

/-- C6 counterexample: not every time-adding operation resets
`played_sound`.  A timer at zero with the flag set, made non-zero by the
board-level bulk add (`add_time(10)` via the `⏮` board button), keeps
`played_sound = true`: only the per-timer `⏮` button contains the reset. -/
theorem cue_reset_missing_cex :
    MyApp.bulkAdd { MyApp.default with
        timers := [{ Timer.new "torch" 1 0 with state := .Paused 0, played_sound := true }] } =
      some { MyApp.default with
        timers := [{ Timer.new "torch" 1 0 with
                     state := .Paused (fromSecs 600), played_sound := true }] } ∧
    Timer.time_remaining
      { Timer.new "torch" 1 0 with state := .Paused 0, played_sound := true } 0 = 0 ∧
    Timer.time_remaining
      { Timer.new "torch" 1 0 with
        state := .Paused (fromSecs 600), played_sound := true } 0 ≠ 0 := by
  decide

/-- C6 (amended).  The completion cue is one-shot per zero-crossing: while
the remaining time is zero the cue fires on the first frame only
(`played_sound` suppresses repeats), and the `played_sound` flag resets
when the per-timer add-time button turns a zero remaining time into a
non-zero one.  (Board-level bulk add and `set_time` do not reset the
flag — see the counterexample.) -/
theorem cue_fires_once (t : Timer) (now : Int) :
    (t.time_remaining now = 0 → t.played_sound = true → cueTick t now = (t, false)) ∧
    (t.time_remaining now = 0 → t.played_sound = false →
      cueTick t now = ({ t with played_sound := true }, true)) ∧
    (t.time_remaining now ≠ 0 → cueTick t now = (t, false)) ∧
    (∀ t2, perAddTimer t now = some t2 → t.time_remaining now = 0 →
      t2.time_remaining now ≠ 0 → t2.played_sound = false) := by
  refine ⟨?_, ?_, ?_, ?_⟩
  · intro h0 hps
    simp [cueTick, h0, hps]
  · intro h0 hps
    simp [cueTick, h0, hps]
  · intro hnz
    simp [cueTick, hnz]
  · intro t2 hop h0 hnz
    simp only [perAddTimer] at hop
    cases hadd : t.add_time t.displayed_time with
    | none => rw [hadd] at hop; simp at hop
    | some t3 =>
      rw [hadd] at hop
      simp only [Option.map_some', Option.some.injEq] at hop
      by_cases hc : t.time_remaining now = 0 ∧ t3.time_remaining now ≠ 0
      · rw [if_pos hc] at hop
        simp [← hop]
      · rw [if_neg hc] at hop
        subst hop
        exact absurd ⟨h0, hnz⟩ hc

/-- C6 witness: a timer already done with the flag set neither replays the
cue nor clears the flag on the next frame. -/
theorem cue_fires_once_witness :
    cueTick { Timer.new "torch" 1 0 with state := .Paused 0, played_sound := true } 0 =
      ({ Timer.new "torch" 1 0 with state := .Paused 0, played_sound := true }, false) :=
  (cue_fires_once { Timer.new "torch" 1 0 with state := .Paused 0, played_sound := true } 0).1
    (by decide) (by decide)

/-- Lemma: `add_time` keeps `local_pause` and maps `Paused` to `Paused`. -/
theorem add_time_preserves {t t2 : Timer} {x : Nat} (h : t.add_time x = some t2) :
    t2.local_pause = t.local_pause ∧ (t.is_paused = true → t2.is_paused = true) := by
  cases hs : t.state with
  | RunUntil e =>
    simp only [Timer.add_time, hs] at h
    obtain ⟨e2, -, rfl⟩ := Option.map_eq_some'.mp h
    simp [Timer.is_paused, hs]
  | Paused d =>
    simp only [Timer.add_time, hs, Option.some.injEq] at h
    subst h
    simp [Timer.is_paused]

/-- Lemma: `remove_time` keeps `local_pause` and maps `Paused` to `Paused`. -/
theorem remove_time_preserves {t t2 : Timer} {x : Nat} (h : t.remove_time x = some t2) :
    t2.local_pause = t.local_pause ∧ (t.is_paused = true → t2.is_paused = true) := by
  cases hs : t.state with
  | RunUntil e =>
    simp only [Timer.remove_time, hs] at h
    obtain ⟨e2, -, rfl⟩ := Option.map_eq_some'.mp h
    simp [Timer.is_paused, hs]
  | Paused d =>
    simp only [Timer.remove_time, hs, Option.some.injEq] at h
    subst h
    simp [Timer.is_paused]

/-- Lemma: `set_time` keeps `local_pause` and maps `Paused` to `Paused`. -/
theorem set_time_preserves {t t2 : Timer} {now : Int} {x : Nat}
    (h : t.set_time now x = some t2) :
    t2.local_pause = t.local_pause ∧ (t.is_paused = true → t2.is_paused = true) := by
  cases hs : t.state with
  | RunUntil e =>
    simp only [Timer.set_time, hs] at h
    obtain ⟨e2, -, rfl⟩ := Option.map_eq_some'.mp h
    simp [Timer.is_paused, hs]
  | Paused d =>
    simp only [Timer.set_time, hs, Option.some.injEq] at h
    subst h
    simp [Timer.is_paused]

/-- Lemma: `start` keeps `local_pause`. -/
theorem start_keeps_local_pause {t t2 : Timer} {now : Int} (h : t.start now = some t2) :
    t2.local_pause = t.local_pause := by
  cases hs : t.state with
  | RunUntil e => simp only [Timer.start, hs, Option.some.injEq] at h; subst h; rfl
  | Paused d =>
    simp only [Timer.start, hs] at h
    obtain ⟨e2, -, rfl⟩ := Option.map_eq_some'.mp h
    rfl

/-- The frame cue check only touches `played_sound`. -/
theorem cueTick_preserves (t : Timer) (now : Int) :
    (cueTick t now).1.local_pause = t.local_pause ∧
    (cueTick t now).1.is_paused = t.is_paused := by
  simp only [cueTick]
  split
  · split <;> simp [Timer.is_paused]
  · simp

/-- The per-timer add button keeps `local_pause` and maps `Paused` to
`Paused`. -/
theorem perAddTimer_preserves {t t2 : Timer} {now : Int} (h : perAddTimer t now = some t2) :
    t2.local_pause = t.local_pause ∧ (t.is_paused = true → t2.is_paused = true) := by
  simp only [perAddTimer] at h
  cases hadd : t.add_time t.displayed_time with
  | none => rw [hadd] at h; simp at h
  | some t3 =>
    rw [hadd] at h
    simp only [Option.map_some', Option.some.injEq] at h
    have hp := add_time_preserves hadd
    subst h
    split
    · exact ⟨hp.1, fun hip => hp.2 hip⟩
    · exact hp

/-- The local-pause toggle always reestablishes the C10 obligation. -/
theorem toggleTimer_lp {t t2 : Timer} {now : Int} {running : Bool}
    (h : toggleTimer t now running = some t2) : LP t2 := by
  simp only [toggleTimer] at h
  split at h
  · cases hst : (if running = true then t.start now else some t) with
    | none => rw [hst] at h; simp at h
    | some t3 =>
      rw [hst] at h
      simp only [Option.map_some', Option.some.injEq] at h
      subst h
      intro hlp
      simp at hlp
  · simp only [Option.some.injEq] at h
    subst h
    intro hlp
    simp [Timer.pause, Timer.is_paused]

/-- Lemma: `mapTimers` preserves the C10 obligation whenever the per-timer
operation does. -/
theorem mapTimers_lp {f : Timer → Option Timer} {ts ts2 : List Timer}
    (h : mapTimers f ts = some ts2)
    (hf : ∀ t t2, t ∈ ts → f t = some t2 → LP t → LP t2)
    (hts : ∀ t ∈ ts, LP t) : ∀ t2 ∈ ts2, LP t2 := by
  induction ts generalizing ts2 with
  | nil =>
    simp only [mapTimers, Option.some.injEq] at h
    subst h
    simp
  | cons t rest ih =>
    simp only [mapTimers] at h
    cases hft : f t with
    | none => rw [hft] at h; simp at h
    | some t2 =>
      rw [hft] at h
      cases hmt : mapTimers f rest with
      | none => rw [hmt] at h; simp at h
      | some rest2 =>
        rw [hmt] at h
        simp only [Option.some.injEq] at h
        subst h
        intro u hu
        rcases List.mem_cons.mp hu with rfl | hu2
        · exact hf t u (List.mem_cons_self t rest) hft (hts t (List.mem_cons_self t rest))
        · exact ih hmt (fun v v2 hv => hf v v2 (List.mem_cons_of_mem t hv))
            (fun v hv => hts v (List.mem_cons_of_mem t hv)) u hu2

/-- Membership in `insertIdx` (without a bound on the position, under
which `List.insertIdx` leaves the list unchanged). -/
theorem mem_insertIdx_cases {t tn : Timer} {ts : List Timer} {n : Nat}
    (h : t ∈ ts.insertIdx n tn) : t = tn ∨ t ∈ ts := by
  induction ts generalizing n with
  | nil =>
    cases n with
    | zero => simpa using h
    | succ m => rw [List.insertIdx_succ_nil] at h; simp at h
  | cons a rest ih =>
    cases n with
    | zero =>
      rw [List.insertIdx_zero] at h
      simpa using List.mem_cons.mp h
    | succ m =>
      rw [List.insertIdx_succ_cons] at h
      rcases List.mem_cons.mp h with rfl | h2
      · exact Or.inr (List.mem_cons_self _ _)
      · rcases ih h2 with h3 | h3
        · exact Or.inl h3
        · exact Or.inr (List.mem_cons_of_mem _ h3)

/-- Every UI step preserves the C10 obligation for every timer. -/
theorem step_lp {a a2 : MyApp} (hst : Step a a2) (hts : ∀ t ∈ a.timers, LP t) :
    ∀ t ∈ a2.timers, LP t := by
  cases hst with
  | spawn a2 now pos h =>
    simp only [MyApp.spawnTimer] at h
    cases hst2 : (if a.running = true
        then (Timer.new a.new_name a.start_duration a.next_timer_id).start now
        else some (Timer.new a.new_name a.start_duration a.next_timer_id)) with
    | none => rw [hst2] at h; simp at h
    | some tn =>
      rw [hst2] at h
      simp only [Option.map_some', Option.some.injEq] at h
      subst h
      have hlpn : tn.local_pause = false := by
        split at hst2
        · rw [start_keeps_local_pause hst2]; rfl
        · simp only [Option.some.injEq] at hst2; subst hst2; rfl
      intro u hu
      rcases mem_insertIdx_cases hu with rfl | hu2
      · intro hc; rw [hlpn] at hc; exact absurd hc Bool.false_ne_true
      · exact hts u hu2
  | removeAt i =>
    intro u hu
    exact hts u ((List.eraseIdx_sublist a.timers i).subset hu)
  | toggle i now t t2 hget hz htog =>
    intro u hu
    rcases List.mem_or_eq_of_mem_set hu with hu2 | rfl
    · exact hts u hu2
    · exact toggleTimer_lp htog
  | perAdd i now t t2 hget hop =>
    intro u hu
    rcases List.mem_or_eq_of_mem_set hu with hu2 | rfl
    · exact hts u hu2
    · have hp := perAddTimer_preserves hop
      intro hc
      exact hp.2 (hts t (List.getElem?_mem hget) (hp.1 ▸ hc))
  | perRemove i now t t2 hget hz hop =>
    intro u hu
    rcases List.mem_or_eq_of_mem_set hu with hu2 | rfl
    · exact hts u hu2
    · have hp := remove_time_preserves hop
      intro hc
      exact hp.2 (hts t (List.getElem?_mem hget) (hp.1 ▸ hc))
  | perSet i now t t2 hget hop =>
    intro u hu
    rcases List.mem_or_eq_of_mem_set hu with hu2 | rfl
    · exact hts u hu2
    · have hp := set_time_preserves hop
      intro hc
      exact hp.2 (hts t (List.getElem?_mem hget) (hp.1 ▸ hc))
  | cue i now t hget =>
    intro u hu
    rcases List.mem_or_eq_of_mem_set hu with hu2 | rfl
    · exact hts u hu2
    · have hp := cueTick_preserves t now
      intro hc
      exact hp.2 ▸ hts t (List.getElem?_mem hget) (hp.1 ▸ hc)
  | bulkAdd a2 h =>
    simp only [MyApp.bulkAdd] at h
    cases hmt : mapTimers (fun t => if t.local_pause = true then some t
        else t.add_time a.displayed_time) a.timers with
    | none => rw [hmt] at h; simp at h
    | some ts2 =>
      rw [hmt] at h
      simp only [Option.map_some', Option.some.injEq] at h
      subst h
      refine mapTimers_lp hmt ?_ hts
      intro t t2 hmem hf hlp
      split at hf
      · simp only [Option.some.injEq] at hf; subst hf; exact hlp
      · have hp := add_time_preserves hf
        intro hc
        exact hp.2 (hlp (hp.1 ▸ hc))
  | bulkRemove a2 h =>
    simp only [MyApp.bulkRemove] at h
    cases hmt : mapTimers (fun t => if t.local_pause = true then some t
        else t.remove_time a.displayed_time) a.timers with
    | none => rw [hmt] at h; simp at h
    | some ts2 =>
      rw [hmt] at h
      simp only [Option.map_some', Option.some.injEq] at h
      subst h
      refine mapTimers_lp hmt ?_ hts
      intro t t2 hmem hf hlp
      split at hf
      · simp only [Option.some.injEq] at hf; subst hf; exact hlp
      · have hp := remove_time_preserves hf
        intro hc
        exact hp.2 (hlp (hp.1 ▸ hc))
  | gStart a2 now hr h =>
    simp only [MyApp.globalStart] at h
    cases hmt : mapTimers (fun t => if t.is_paused && !t.local_pause then t.start now
        else some t) a.timers with
    | none => rw [hmt] at h; simp at h
    | some ts2 =>
      rw [hmt] at h
      simp only [Option.map_some', Option.some.injEq] at h
      subst h
      refine mapTimers_lp hmt ?_ hts
      intro t t2 hmem hf hlp
      split at hf
      · intro hc
        rw [start_keeps_local_pause hf] at hc
        rename_i hcond
        rw [hc] at hcond
        simp at hcond
      · simp only [Option.some.injEq] at hf; subst hf; exact hlp
  | gPause now hr =>
    intro u hu
    simp only [MyApp.globalPause, List.mem_map] at hu
    obtain ⟨t, hmem, rfl⟩ := hu
    split
    · intro hc
      simp [Timer.pause, Timer.is_paused]
    · exact hts t hmem
  | config nm sd dt =>
    exact hts

/-- All reachable board states satisfy the C10 obligation. -/
theorem reachable_lp (a : MyApp) (h : Reachable a) : ∀ t ∈ a.timers, LP t := by
  unfold Reachable at h
  induction h with
  | refl =>
    intro t ht
    simp only [MyApp.default, List.mem_singleton] at ht
    subst ht
    intro hc
    exact absurd hc (by decide)
  | tail hsteps hstep ih => exact step_lp hstep ih

/-- C10.  In every board state reachable from the default board through
the UI operations (spawn, local-pause toggle, per-timer buttons, cue
frame, removal, bulk add/remove, global start, global pause, template
edits), every timer with `local_pause = true` is `Paused`: toggling local
pause on pauses immediately, spawned timers have `local_pause = false`,
and global start skips individually paused timers. -/
theorem reachable_local_pause_paused (a : MyApp) (h : Reachable a) :
    localPausedArePaused a = true := by
  have hlp := reachable_lp a h
  simp only [localPausedArePaused, List.all_eq_true]
  intro t ht
  cases hl : t.local_pause with
  | false => simp
  | true => simp [hlp t ht hl]

/-- C10 witness: the default board itself. -/
theorem reachable_local_pause_paused_witness :
    localPausedArePaused MyApp.default = true :=
  reachable_local_pause_paused MyApp.default Relation.ReflTransGen.refl

end TorchTimer
